import Mathlib

/-!
Shallow embedding of `torchsim/autobatching.py` (module `torchsim.autobatching`):
the memory-probing search `determine_max_batch_size`, the budget estimator
`estimate_max_memory_scaler`, and the two batchers `ChunkingAutoBatcher` and
`HotswappingAutoBatcher`, together with theorems checking the repository's
specification against this code.

Modelling conventions:
* A single-system state (`BaseState` slice) is an opaque value of a type `σ`;
  a batched state is a `List σ` of its per-system slices in segment order
  (`n_batches` is the list length).
* Python floats are modelled as `ℚ`; the claims under study concern control
  flow driven by comparisons and bookkeeping, not rounding.
* GPU-dependent calls (`measure_model_memory_forward` inside
  `determine_max_batch_size`, and `calculate_memory_scaler` /
  `estimate_max_memory_scaler` seen from the batchers) are oracles passed in
  as function parameters.
* Python exceptions are modelled by `Except Err`; each `Err` constructor
  corresponds to one `raise` site (or builtin raise) and records the Python
  exception class it is raised with.
-/

namespace TorchSim

/-- Python exception classes relevant to the module, including the
distinct `ConfigurationError` class named by the specification's error
taxonomy (section 7). -/
inductive ErrClass where
  | valueError
  | configurationError
  | assertionError
  | stopIteration
  | indexError
  | runtimeError
  | typeError
  deriving DecidableEq, Repr

/-- Errors raised by the embedded code. Each constructor models one raise
site and carries the data interpolated into the exception message. -/
inductive Err where
  /-- `_get_next_states`: "State metric {metric} is greater than max_metric
  {max}" (ValueError). -/
  | metricGreaterThanMax (metric maxMetric : ℚ)
  /-- `ChunkingAutoBatcher.__init__`: "Max metric of system with index {idx}
  in states: {metric} is greater than max_metric {max}" (ValueError). -/
  | maxMetricTooLarge (idx : ℕ) (metric maxMetric : ℚ)
  /-- both `restore_original_order` methods: "Number of states ({n}) does not
  match number of original indices ({m})" (ValueError). -/
  | countMismatch (nStates nIndices : ℕ)
  /-- `next_batch`: "A convergence tensor must be provided after the first
  batch has been run." (ValueError). -/
  | convergenceRequired
  /-- a failed `assert` statement. -/
  | assertionFailed
  /-- `next()` on an exhausted iterator. -/
  | stopIterationRaised
  /-- `list.pop` / indexing with an out-of-range index. -/
  | indexOutOfRange
  /-- a `RuntimeError` that is not a CUDA out-of-memory error, re-raised by
  `determine_max_batch_size`; the tag identifies the original error. -/
  | runtimeOther (tag : ℕ)
  /-- builtin `max()` / tensor `min()` applied to an empty sequence. -/
  | emptySequence
  /-- comparison of a float with `None` (max_memory_scaler unset). -/
  | noneComparison
  deriving DecidableEq, Repr

/-- Mapping from each error to the Python exception class it is raised
with, as written at its raise site in the source. -/
def Err.cls : Err → ErrClass
  | .metricGreaterThanMax _ _ => .valueError
  | .maxMetricTooLarge _ _ _ => .valueError
  | .countMismatch _ _ => .valueError
  | .convergenceRequired => .valueError
  | .assertionFailed => .assertionError
  | .stopIterationRaised => .stopIteration
  | .indexOutOfRange => .indexError
  | .runtimeOther _ => .runtimeError
  | .emptySequence => .valueError
  | .noneComparison => .typeError

/-- Outcome of one memory-measuring forward pass
(`measure_model_memory_forward`): success with a peak-memory reading, a
`RuntimeError` whose message contains "CUDA out of memory", or any other
error (tagged so that re-raising can be observed). -/
inductive ProbeOutcome where
  | success (memGB : ℚ)
  | cudaOOM
  | otherError (tag : ℕ)
  deriving DecidableEq, Repr

/-- Embedding of `completed_idx.sort(reverse=True)`: a stable descending
sort. -/
def sortDesc (l : List ℕ) : List ℕ :=
  l.insertionSort (· ≥ ·)

/-- Embedding of `torch.where(convergence_tensor)[0].tolist()`: the indices
of the `True` entries, in ascending order. -/
def trueIndices (conv : List Bool) : List ℕ :=
  (List.range conv.length).filter fun i => conv.getD i false

/-- Python truthiness of an optional float (`bool(x)`), used by the
`if not max_memory_scaler` checks: `None` and `0.0` are falsy. -/
def truthy : Option ℚ → Bool
  | none => false
  | some v => v ≠ 0

/-- Loop `while fib[-1] < max_atoms: fib.append(fib[-1] + fib[-2])`, with
the accumulator kept reversed. The fuel argument bounds the iteration
count; the last entry grows by at least one per step, so `maxAtoms` steps
always suffice. -/
def fibListGo (maxAtoms : ℕ) : ℕ → List ℕ → List ℕ
  | 0, acc => acc.reverse
  | fuel + 1, acc =>
    match acc with
    | b :: a :: rest =>
      if b < maxAtoms then fibListGo maxAtoms fuel ((a + b) :: b :: a :: rest)
      else acc.reverse
    | _ => acc.reverse

/-- The candidate list `fib = [1, 2]` extended while `fib[-1] < max_atoms`. -/
def fibList (maxAtoms : ℕ) : List ℕ :=
  fibListGo maxAtoms maxAtoms [2, 1]

/-- Python list index `i - 2` (an `int`): negative values wrap to the end
of a list of length `len`, so `fib[-2]` is `fib[len - 2]`. -/
def pyIdx (len i : ℕ) : ℕ :=
  if 2 ≤ i then i - 2 else len + i - 2

/-- The probe loop `for i in range(len(fib))` of `determine_max_batch_size`:
try the remaining candidates (`fib[i:]`) in order; on the first CUDA OOM
return `fib[i - 2]` (Python indexing); re-raise any other error; if no
probe fails return `fib[-2]`. -/
def dmbsLoop (probe : ℕ → ProbeOutcome) (fib : List ℕ) :
    List ℕ → ℕ → Except Err ℕ
  | [], _ => .ok (fib.getD (fib.length - 2) 0)
  | c :: rest, i =>
    match probe c with
    | .success _ => dmbsLoop probe fib rest (i + 1)
    | .cudaOOM => .ok (fib.getD (pyIdx fib.length i) 0)
    | .otherError t => .error (.runtimeOther t)

/-- Embedding of `determine_max_batch_size(state, model, max_atoms)`. The
forward pass on `n` concatenated copies of the state is the oracle
`probe n`. -/
def determine_max_batch_size (probe : ℕ → ProbeOutcome) (maxAtoms : ℕ) :
    Except Err ℕ :=
  dmbsLoop probe (fibList maxAtoms) (fibList maxAtoms) 0

/-- Minimum of a list of rationals (`tensor.min()`); `none` models the
error raised on an empty sequence. -/
def listMin (l : List ℚ) : Option ℚ :=
  l.min?

/-- Maximum of a list of rationals (`tensor.max()` / builtin `max`). -/
def listMax (l : List ℚ) : Option ℚ :=
  l.max?

/-- First index attaining value `v` (`tensor.argmin()` / `list.index`
return the first occurrence). -/
def firstIdxOf (v : ℚ) (l : List ℚ) : ℕ :=
  l.findIdx fun x => x = v

/-- Embedding of `estimate_max_memory_scaler(model, state_list,
metric_values, max_atoms)`: probe the state with minimum metric and the
state with maximum metric independently and return
`min(min_state_max_batches * min_metric, max_state_max_batches * max_metric)`.
Here `probe s n` is the forward pass on `n` copies of state `s`. -/
def estimate_max_memory_scaler {σ : Type} (probe : σ → ℕ → ProbeOutcome)
    (state_list : List σ) (metric_values : List ℚ) (maxAtoms : ℕ) :
    Except Err ℚ :=
  match listMin metric_values, listMax metric_values with
  | some min_metric, some max_metric =>
    match state_list.get? (firstIdxOf min_metric metric_values),
        state_list.get? (firstIdxOf max_metric metric_values) with
    | some min_state, some max_state => do
      let min_state_max_batches ← determine_max_batch_size (probe min_state) maxAtoms
      let max_state_max_batches ← determine_max_batch_size (probe max_state) maxAtoms
      .ok (min ((min_state_max_batches : ℚ) * min_metric)
        ((max_state_max_batches : ℚ) * max_metric))
    | _, _ => .error .indexOutOfRange
  | _, _ => .error .emptySequence

/-- Modelled from the spec: `split_state` from `torchsim.state` (the file
is not under src/). Spec section 4.1 Split: a batched state becomes the
list of its single-system states, in segment order. With a batch as
`List σ`, each single-system state is a singleton batch. -/
def split_state {σ : Type} (batch : List σ) : List (List σ) :=
  batch.map fun s => [s]

/-- Modelled from the spec: `concatenate_states` from `torchsim.state`
(the file is not under src/). Spec section 4.1 Concatenate: lay out every
input state's systems in input order. -/
def concatenate_states {σ : Type} (states : List (List σ)) : List σ :=
  states.flatten

/-- Modelled from the spec: `pop_states` from `torchsim.state` (the file
is not under src/). Spec section 4.1 Pop(state, system_ids) returns
(remaining_state, popped_states): removes the requested systems, returning
the remainder as one batch (original order) and the removed systems as
individual states in the order the ids were given; out-of-range ids are an
IndexError-class failure. -/
def pop_states {σ : Type} (batch : List σ) (system_ids : List ℕ) :
    Except Err (List σ × List (List σ)) :=
  if system_ids.all (· < batch.length) then
    .ok ((batch.enum.filter fun p => p.1 ∉ system_ids).map Prod.snd,
      system_ids.filterMap fun i => (batch.get? i).map fun s => [s])
  else
    .error .indexOutOfRange

/-- Stable ascending sort of (original index, state) pairs by index:
`sorted(indexed_states, key=lambda x: x[0])`. -/
def sortByIdx {α : Type} (pairs : List (ℕ × α)) : List (ℕ × α) :=
  pairs.insertionSort fun p q => p.1 ≤ q.1

/-- Instance state of `ChunkingAutoBatcher` after `__init__`. -/
structure ChunkingAutoBatcher (σ : Type) where
  state_slices : List σ
  memory_scalers : List ℚ
  max_memory_scaler : ℚ
  index_bins : List (List ℕ)
  batched_states : List (List σ)
  current_state_bin : ℕ
  deriving Repr, DecidableEq

/-- The budget `ChunkingAutoBatcher.__init__` settles on: the argument when
truthy (`if not max_memory_scaler` is Python falsiness), otherwise the
estimator's output on all states. The estimator (which probes the GPU) is
the oracle `est`. -/
def resolvedBudget {σ : Type} (est : List σ → List ℚ → ℚ)
    (states : List σ) (scalers : List ℚ) (max_memory_scaler : Option ℚ) : ℚ :=
  if truthy max_memory_scaler then max_memory_scaler.getD 0
  else est states scalers

/-- Embedding of `ChunkingAutoBatcher.__init__(states, model,
memory_scales_with, max_memory_scaler, max_atoms_to_try)`. Here `m` is
`calculate_memory_scaler` for the chosen metric, `est` the
`estimate_max_memory_scaler` oracle, and `binpack` the external
`binpacking.to_constant_volume` (index/scaler pairs and a budget to bins
of indices). Raises ValueError if the largest scaler exceeds the final
budget, naming the first index attaining that scaler. -/
def chunkingInit {σ : Type} (m : σ → ℚ) (est : List σ → List ℚ → ℚ)
    (binpack : List (ℕ × ℚ) → ℚ → List (List ℕ))
    (states : List σ) (max_memory_scaler : Option ℚ) :
    Except Err (ChunkingAutoBatcher σ) :=
  let memory_scalers := states.map m
  let maxM := resolvedBudget est states memory_scalers max_memory_scaler
  match listMax memory_scalers with
  | none => .error .emptySequence
  | some max_metric_value =>
    let max_metric_idx := firstIdxOf max_metric_value memory_scalers
    if max_metric_value > maxM then
      .error (.maxMetricTooLarge max_metric_idx max_metric_value maxM)
    else
      let index_bins := binpack memory_scalers.enum maxM
      .ok { state_slices := states
            memory_scalers := memory_scalers
            max_memory_scaler := maxM
            index_bins := index_bins
            batched_states := index_bins.map fun bin => bin.filterMap states.get?
            current_state_bin := 0 }

/-- Embedding of `ChunkingAutoBatcher.next_batch(return_indices=True)`:
the next bin's concatenated states with its original indices, or `None`
once exhausted (the `return_indices=False` variant is the first
component). -/
def ChunkingAutoBatcher.next_batch {σ : Type} (c : ChunkingAutoBatcher σ) :
    Option (List σ × List ℕ) × ChunkingAutoBatcher σ :=
  if c.current_state_bin < c.batched_states.length then
    let state_bin := c.batched_states.getD c.current_state_bin []
    let c' := { c with current_state_bin := c.current_state_bin + 1 }
    (some (state_bin, c.index_bins.getD c.current_state_bin []), c')
  else
    (none, c)

/-- Repeated `next_batch` calls, keeping only the evolving instance
state. -/
def ChunkingAutoBatcher.iterateNextBatch {σ : Type} (c : ChunkingAutoBatcher σ) :
    ℕ → ChunkingAutoBatcher σ
  | 0 => c
  | n + 1 => (c.next_batch.2).iterateNextBatch n

/-- Embedding of `ChunkingAutoBatcher.restore_original_order
(batched_states)`: split each batch into single-system states, flatten,
check the count against the flattened `index_bins`, and sort by original
index. -/
def ChunkingAutoBatcher.restore_original_order {σ : Type}
    (c : ChunkingAutoBatcher σ) (batched_states : List (List σ)) :
    Except Err (List (List σ)) :=
  let all_states := (batched_states.map split_state).flatten
  let original_indices := c.index_bins.flatten
  if all_states.length ≠ original_indices.length then
    .error (.countMismatch all_states.length original_indices.length)
  else
    .ok ((sortByIdx (original_indices.zip all_states)).map Prod.snd)

/-- Instance state of `HotswappingAutoBatcher`. The lazily-consumed
`states_iterator` is modelled as the list of states not yet pulled. -/
structure HotswappingAutoBatcher (σ : Type) where
  states_iterator : List σ
  max_memory_scaler : Option ℚ
  current_scalers : List ℚ
  current_idx : List ℕ
  iterator_idx : ℕ
  completed_idx_og_order : List ℕ
  deriving Repr, DecidableEq

/-- Embedding of `HotswappingAutoBatcher.__init__`: note that
`max_memory_scaler or None` turns a falsy argument (0.0 or None) into
None. -/
def hotswappingInit {σ : Type} (states : List σ)
    (max_memory_scaler : Option ℚ) : HotswappingAutoBatcher σ :=
  { states_iterator := states
    max_memory_scaler := if truthy max_memory_scaler then max_memory_scaler else none
    current_scalers := []
    current_idx := []
    iterator_idx := 0
    completed_idx_og_order := [] }

/-- The `for state in self.states_iterator` loop of `_get_next_states`:
admit states while they fit, raise ValueError on a state whose metric
alone exceeds the budget, and put the first non-fitting state back at the
front of the iterator. `base` is `sum(self.current_scalers)` at entry.
Returns the remaining iterator and the accumulated new
metrics/indices/states and iterator index. -/
def getNextStatesLoop {σ : Type} (m : σ → ℚ) (maxM base : ℚ) :
    List σ → List ℚ → List ℕ → List σ → ℕ →
    Except Err (List σ × List ℚ × List ℕ × List σ × ℕ)
  | [], newMetrics, newIdx, newStates, itIdx =>
    .ok ([], newMetrics, newIdx, newStates, itIdx)
  | state :: rest, newMetrics, newIdx, newStates, itIdx =>
    let metric := m state
    if metric > maxM then
      .error (.metricGreaterThanMax metric maxM)
    else if base + newMetrics.sum + metric > maxM then
      .ok (state :: rest, newMetrics, newIdx, newStates, itIdx)
    else
      getNextStatesLoop m maxM base rest (newMetrics ++ [metric])
        (newIdx ++ [itIdx]) (newStates ++ [state]) (itIdx + 1)

/-- Embedding of `HotswappingAutoBatcher._get_next_states()`: run the
admission loop and extend `current_scalers` / `current_idx`; returns the
new states. Comparing a metric against an unset (`None`) budget is a
Python TypeError. -/
def HotswappingAutoBatcher.get_next_states {σ : Type} (m : σ → ℚ)
    (b : HotswappingAutoBatcher σ) :
    Except Err (HotswappingAutoBatcher σ × List σ) :=
  match b.max_memory_scaler with
  | none =>
    if b.states_iterator.isEmpty then .ok (b, [])
    else .error .noneComparison
  | some maxM => do
    let (queue, newMetrics, newIdx, newStates, itIdx) ←
      getNextStatesLoop m maxM b.current_scalers.sum b.states_iterator
        [] [] [] b.iterator_idx
    .ok ({ b with
            states_iterator := queue
            current_scalers := b.current_scalers ++ newMetrics
            current_idx := b.current_idx ++ newIdx
            iterator_idx := itIdx }, newStates)

/-- The `for idx in completed_idx` loop of `_delete_old_states`: pop each
position from `current_idx` and `current_scalers` and append the popped
original index to `completed_idx_og_order`. Python `list.pop` raises
IndexError on an out-of-range position. -/
def deleteOldStatesLoop : List ℕ → List ℚ → List ℕ → List ℕ →
    Except Err (List ℕ × List ℚ × List ℕ)
  | cur, sca, comp, [] => .ok (cur, sca, comp)
  | cur, sca, comp, idx :: rest =>
    match cur.get? idx, sca.get? idx with
    | some og, some _ =>
      deleteOldStatesLoop (cur.eraseIdx idx) (sca.eraseIdx idx)
        (comp ++ [og]) rest
    | _, _ => .error .indexOutOfRange

/-- Embedding of `HotswappingAutoBatcher._delete_old_states
(completed_idx)`: sort the positions in descending order, then pop each
one, recording the original indices in that (descending) order. -/
def HotswappingAutoBatcher.delete_old_states {σ : Type}
    (b : HotswappingAutoBatcher σ) (completed_idx : List ℕ) :
    Except Err (HotswappingAutoBatcher σ) := do
  let (cur, sca, comp) ← deleteOldStatesLoop b.current_idx b.current_scalers
    b.completed_idx_og_order (sortDesc completed_idx)
  .ok { b with
         current_idx := cur
         current_scalers := sca
         completed_idx_og_order := comp }

/-- Embedding of `HotswappingAutoBatcher._first_batch()`: pull the first
state (without any budget check on it), estimate the budget if unset
(shrinking the interim estimate by 0.8), admit further states, then
re-estimate the budget (without the 0.8 factor) from all admitted states.
Here `est` is the `estimate_max_memory_scaler` oracle (state list, metric
list to estimate). -/
def HotswappingAutoBatcher.first_batch {σ : Type} (m : σ → ℚ)
    (est : List σ → List ℚ → ℚ) (b : HotswappingAutoBatcher σ) :
    Except Err (HotswappingAutoBatcher σ × List σ) :=
  match b.states_iterator with
  | [] => .error .stopIterationRaised
  | first_state :: rest =>
    let first_metric := m first_state
    let b1 : HotswappingAutoBatcher σ :=
      { b with
          states_iterator := rest
          current_scalers := b.current_scalers ++ [first_metric]
          current_idx := b.current_idx ++ [0]
          iterator_idx := b.iterator_idx + 1 }
    let has_max_metric := truthy b1.max_memory_scaler
    let b2 : HotswappingAutoBatcher σ :=
      if has_max_metric then b1
      else
        let interim := est [first_state] [first_metric] * (4 / 5)
        { b1 with max_memory_scaler := some interim }
    do
      let (b3, states) ← b2.get_next_states m
      let b4 : HotswappingAutoBatcher σ :=
        if has_max_metric then b3
        else
          let fin := est (first_state :: states) b3.current_scalers
          { b3 with max_memory_scaler := some fin }
      .ok (b4, first_state :: states)

/-- Embedding of `HotswappingAutoBatcher.next_batch(updated_state,
convergence_tensor, return_indices=...)`. The convergence tensor is a
`List Bool`, the updated batch a `List σ`; the result is the new instance
state, the next batch (or `None` at termination) and the popped completed
states. -/
def HotswappingAutoBatcher.next_batch {σ : Type} (m : σ → ℚ)
    (est : List σ → List ℚ → ℚ) (b : HotswappingAutoBatcher σ)
    (updated_state : Option (List σ)) (convergence_tensor : Option (List Bool)) :
    Except Err (HotswappingAutoBatcher σ × Option (List σ) × List (List σ)) :=
  match convergence_tensor, updated_state with
  | none, _ | _, none =>
    if b.iterator_idx > 0 then
      .error .convergenceRequired
    else do
      let (b', batch) ← b.first_batch m est
      .ok (b', some batch, [])
  | some conv, some updated =>
    if conv.length ≠ updated.length then .error .assertionFailed
    else if b.current_idx.length ≠ b.current_scalers.length then
      .error .assertionFailed
    else if updated.length = 0 then .error .assertionFailed
    else do
      let completed_idx := sortDesc (trueIndices conv)
      let (remaining_state, completed_states) ← pop_states updated completed_idx
      let b1 ← b.delete_old_states completed_idx
      let (b2, next_states) ← b1.get_next_states m
      if b2.current_idx = [] then
        .ok (b2, none, completed_states)
      else
        let batch_states :=
          if remaining_state.length > 0 then
            remaining_state :: next_states.map fun s => [s]
          else next_states.map fun s => [s]
        .ok (b2, some (concatenate_states batch_states), completed_states)

/-- Embedding of `HotswappingAutoBatcher.restore_original_order
(completed_states)`: check the count against `completed_idx_og_order`,
then sort the states by their recorded original indices. -/
def HotswappingAutoBatcher.restore_original_order {σ : Type} {α : Type}
    (b : HotswappingAutoBatcher σ) (completed_states : List α) :
    Except Err (List α) :=
  if completed_states.length ≠ b.completed_idx_og_order.length then
    .error (.countMismatch completed_states.length b.completed_idx_og_order.length)
  else
    .ok ((sortByIdx (b.completed_idx_og_order.zip completed_states)).map Prod.snd)

/-- Concrete exhausted chunking batcher for the C10 witness. -/
def chunkExhausted : ChunkingAutoBatcher ℕ :=
  { state_slices := [0]
    memory_scalers := [1]
    max_memory_scaler := 1
    index_bins := [[0]]
    batched_states := [[0]]
    current_state_bin := 1 }

/-- Metric oracle for the C5 theorems: every system costs 10. -/
def mChunkCx : ℕ → ℚ := fun _ => 10

/-- Estimator oracle for the C5 theorems (never reached). -/
def estChunkCx : List ℕ → List ℚ → ℚ := fun _ _ => 0

/-- Bin-packing oracle for the C5 theorems (never reached). -/
def binpackChunkCx : List (ℕ × ℚ) → ℚ → List (List ℕ) := fun _ _ => []

/-- Probe oracle for the C4 witness: OOM from five replicas up. -/
def probeOomAtFive : ℕ → ProbeOutcome := fun n =>
  if n ≥ 5 then .cudaOOM else .success 0

/-- Probe oracle for the C4 counterexample: OOM from two replicas up. -/
def probeOomAtTwo : ℕ → ProbeOutcome := fun n =>
  if n ≥ 2 then .cudaOOM else .success 0

/-- Metric oracle used by several witnesses: a state is its own cost. -/
def mNatCast : ℕ → ℚ := fun n => (n : ℚ)

/-- Estimator oracle used by several witnesses (never consulted). -/
def estZero : List ℕ → List ℚ → ℚ := fun _ _ => 0

/-- In-flight batcher for the C2 witness: budget 5, queue head of
metric 7. -/
def bOversizeQueue : HotswappingAutoBatcher ℕ :=
  { states_iterator := [7]
    max_memory_scaler := some 5
    current_scalers := []
    current_idx := []
    iterator_idx := 0
    completed_idx_og_order := [] }

/-- Fresh single-system batcher for the C2 counterexample: explicit
budget 5, sole queued system of metric 10. -/
def bFirstOversize : HotswappingAutoBatcher ℕ :=
  hotswappingInit [0] (some 5)

/-- Metric oracle for the C2 counterexample: the sole system costs 10. -/
def mTen : ℕ → ℚ := fun _ => 10

/-- In-flight batcher with two systems for the C1 and C6 theorems. -/
def bTwoInFlight : HotswappingAutoBatcher ℕ :=
  { states_iterator := []
    max_memory_scaler := some 10
    current_scalers := [1, 1]
    current_idx := [0, 1]
    iterator_idx := 2
    completed_idx_og_order := [] }

/-- The batcher state after both in-flight systems converge at once. -/
def bTwoDone : HotswappingAutoBatcher ℕ :=
  { states_iterator := []
    max_memory_scaler := some 10
    current_scalers := []
    current_idx := []
    iterator_idx := 2
    completed_idx_og_order := [1, 0] }

/-- The batcher state after the C3 witness run. -/
def bAutoDone : HotswappingAutoBatcher ℕ :=
  { states_iterator := []
    max_memory_scaler := some 100
    current_scalers := [1]
    current_idx := [0]
    iterator_idx := 1
    completed_idx_og_order := [] }

/-- Hot-swapping batcher with two recorded completions for the C7
witness. -/
def bRestore : HotswappingAutoBatcher ℕ :=
  { states_iterator := []
    max_memory_scaler := some 10
    current_scalers := []
    current_idx := []
    iterator_idx := 2
    completed_idx_og_order := [1, 0] }

/-- Probe oracle for the C8 witness: every replication succeeds. -/
def probeAlwaysFits : ℕ → ℕ → ProbeOutcome := fun _ _ => .success 0

/-- The batcher state reached in the C6 witness call. -/
def bOneLeft : HotswappingAutoBatcher ℕ :=
  { states_iterator := []
    max_memory_scaler := some 10
    current_scalers := [1]
    current_idx := [1]
    iterator_idx := 2
    completed_idx_og_order := [0] }

/-- Bookkeeping invariant of the hot-swapping batcher: the metric list and
the in-flight index list stay aligned, in-flight and completed original
indices are disjoint, and together they are exactly the original indices
`0 .. iterator_idx - 1`, each exactly once. -/
def hotswapInv {σ : Type} (b : HotswappingAutoBatcher σ) : Prop :=
  b.current_scalers.length = b.current_idx.length ∧
  (∀ i ∈ b.current_idx, i ∉ b.completed_idx_og_order) ∧
  (b.current_idx ++ b.completed_idx_og_order).Perm (List.range b.iterator_idx)

/-- Decidability of the bookkeeping invariant, for concrete witnesses. -/
instance hotswapInvDecidable {σ : Type} (b : HotswappingAutoBatcher σ) :
    Decidable (hotswapInv b) := by
  unfold hotswapInv
  infer_instance

/-- Batcher state right after a first batch of the single system `7`. -/
def bFirstBatchDone : HotswappingAutoBatcher ℕ :=
  { states_iterator := []
    max_memory_scaler := some 5
    current_scalers := [7]
    current_idx := [0]
    iterator_idx := 1
    completed_idx_og_order := [] }

/-! Helper lemmas and claim theorems. -/

/-- Descending sort permutes its input. -/
lemma sortDesc_perm (l : List ℕ) : (sortDesc l).Perm l :=
  List.perm_insertionSort _ l

/-- Descending sort sorts by the reflexive descending order. -/
lemma sortDesc_sorted (l : List ℕ) : (sortDesc l).Sorted (· ≥ ·) := by
  haveI : IsTotal ℕ (· ≥ ·) := ⟨fun a b => (le_total b a).imp id id⟩
  haveI : IsTrans ℕ (· ≥ ·) := ⟨fun _ _ _ h1 h2 => le_trans h2 h1⟩
  exact List.sorted_insertionSort _ l

/-- A stable descending sort of a strictly ascending list is its
reverse. -/
lemma sortDesc_of_pairwise_lt (l : List ℕ) (h : l.Pairwise (· < ·)) :
    sortDesc l = l.reverse := by
  haveI : IsAntisymm ℕ (· ≥ ·) := ⟨fun _ _ h1 h2 => le_antisymm h2 h1⟩
  refine List.eq_of_perm_of_sorted ?_ (sortDesc_sorted l) ?_
  · exact (sortDesc_perm l).trans l.reverse_perm.symm
  · exact List.pairwise_reverse.mpr (h.imp le_of_lt)

/-- Indices of `True` entries are strictly ascending. -/
lemma trueIndices_pairwise (conv : List Bool) :
    (trueIndices conv).Pairwise (· < ·) :=
  List.Pairwise.sublist (List.filter_sublist _) (List.pairwise_lt_range conv.length)

/-- Membership in the `True`-index list. -/
lemma mem_trueIndices {conv : List Bool} {i : ℕ} :
    i ∈ trueIndices conv ↔ i < conv.length ∧ conv.getD i false := by
  simp [trueIndices, List.mem_filter, List.mem_range]

/-- Sorting the `True` indices in reverse yields their reverse. -/
lemma sortDesc_trueIndices (conv : List Bool) :
    sortDesc (trueIndices conv) = (trueIndices conv).reverse :=
  sortDesc_of_pairwise_lt _ (trueIndices_pairwise conv)

/-- If the first `i` probes succeed, the probe loop reaches index `i`
with the remaining candidates `fib[i:]`. -/
lemma dmbsLoop_skip (probe : ℕ → ProbeOutcome) (fib : List ℕ) (i : ℕ)
    (hle : i ≤ fib.length)
    (hsucc : ∀ j, (hj : j < i) → (hl : j < fib.length) →
      ∃ g, probe (fib.get ⟨j, hl⟩) = .success g) :
    dmbsLoop probe fib fib 0 = dmbsLoop probe fib (fib.drop i) i := by
  induction i with
  | zero => rw [List.drop_zero]
  | succ n ih =>
    have hn : n < fib.length := by omega
    rw [ih (by omega) fun j hj hl => hsucc j (Nat.lt_succ_of_lt hj) hl,
      ← List.getElem_cons_drop fib n hn, dmbsLoop]
    obtain ⟨g, hg⟩ := hsucc n (Nat.lt_succ_self n) hn
    rw [List.get_eq_getElem] at hg
    rw [hg]

/-- A list is a permutation of any one element consed onto its removal. -/
lemma perm_get_cons_eraseIdx {α : Type} (l : List α) (i : ℕ) (h : i < l.length) :
    l.Perm (l.get ⟨i, h⟩ :: l.eraseIdx i) := by
  conv_lhs => rw [← List.take_append_drop i l, ← List.getElem_cons_drop l i h]
  rw [List.eraseIdx_eq_take_drop_succ]
  exact List.perm_middle

/-- Shape of a successful `_delete_old_states` pop loop over a strictly
descending position list: the popped original indices are appended in that
order, pairs are popped from both lists, and the surviving plus popped
entries are a permutation of the original `current_idx`. -/
lemma deleteOldStatesLoop_spec :
    ∀ (ids cur : List ℕ) (sca : List ℚ) (comp cur' : List ℕ)
      (sca' : List ℚ) (comp' : List ℕ),
      ids.Pairwise (· > ·) →
      sca.length = cur.length →
      deleteOldStatesLoop cur sca comp ids = .ok (cur', sca', comp') →
      comp' = comp ++ ids.filterMap cur.get? ∧
      sca'.length = cur'.length ∧
      cur'.length + ids.length = cur.length ∧
      (ids.filterMap cur.get? ++ cur').Perm cur
  | [], cur, sca, comp, cur', sca', comp', _, hlen, h => by
    simp only [deleteOldStatesLoop, Except.ok.injEq, Prod.mk.injEq] at h
    obtain ⟨h1, h2, h3⟩ := h
    subst h1; subst h2; subst h3
    simp [hlen]
  | idx :: rest, cur, sca, comp, cur', sca', comp', hdesc, hlen, h => by
    rw [deleteOldStatesLoop] at h
    cases hcur : cur.get? idx with
    | none => rw [hcur] at h; exact absurd h (by simp)
    | some og =>
      rw [hcur] at h
      obtain ⟨hidx, hget⟩ := List.get?_eq_some.mp hcur
      cases hsca : sca.get? idx with
      | none =>
        rw [hsca] at h
        exact absurd h (by simp)
      | some w =>
        rw [hsca] at h
        have hdesc' := (List.pairwise_cons.mp hdesc).2
        have hhead := (List.pairwise_cons.mp hdesc).1
        have hlen' : (sca.eraseIdx idx).length = (cur.eraseIdx idx).length := by
          have h1 := List.length_eraseIdx_add_one hidx
          have hidx2 : idx < sca.length := hlen ▸ hidx
          have h2 := List.length_eraseIdx_add_one hidx2
          omega
        obtain ⟨ih1, ih2, ih3, ih4⟩ := deleteOldStatesLoop_spec rest
          (cur.eraseIdx idx) (sca.eraseIdx idx) (comp ++ [og]) cur' sca' comp'
          hdesc' hlen' h
        have hcongr : rest.filterMap (cur.eraseIdx idx).get? =
            rest.filterMap cur.get? := by
          refine List.filterMap_congr fun x hx => ?_
          have hxlt : x < idx := hhead x hx
          rw [List.get?_eq_getElem?, List.get?_eq_getElem?,
            List.getElem?_eraseIdx, if_pos hxlt]
        constructor
        · rw [ih1, hcongr, List.filterMap_cons_some hcur]
          simp
        refine ⟨ih2, ?_, ?_⟩
        · have h1 := List.length_eraseIdx_add_one hidx
          simp only [List.length_cons]
          omega
        · rw [List.filterMap_cons_some hcur]
          have hstep : (og :: (rest.filterMap cur.get? ++ cur')).Perm
              (og :: cur.eraseIdx idx) := List.Perm.cons og (hcongr ▸ ih4)
          exact hstep.trans ((hget ▸ perm_get_cons_eraseIdx cur idx hidx).symm)

/-- Shape of a successful `_get_next_states` admission loop: a prefix of
the queue of some length `k` is admitted greedily in order; every admitted
state passes both the per-state budget check and the cumulative fit check,
and the loop stops either at queue exhaustion or at the first state that
fails the cumulative check (which stays at the front of the remaining
queue). -/
lemma getNextStatesLoop_spec {σ : Type} (m : σ → ℚ) (maxM base : ℚ) :
    ∀ (queue : List σ) (newM : List ℚ) (newI : List ℕ) (newS : List σ)
      (itIdx : ℕ) (out : List σ × List ℚ × List ℕ × List σ × ℕ),
      getNextStatesLoop m maxM base queue newM newI newS itIdx = .ok out →
      ∃ k, k ≤ queue.length ∧
        out = (queue.drop k, newM ++ (queue.take k).map m,
          newI ++ List.range' itIdx k, newS ++ queue.take k, itIdx + k) ∧
        (∀ x ∈ queue.take k, m x ≤ maxM) ∧
        (∀ j < k, base + newM.sum + ((queue.take (j + 1)).map m).sum ≤ maxM) ∧
        (k = queue.length ∨
          ((∀ x ∈ queue.take (k + 1), m x ≤ maxM) ∧
            base + newM.sum + ((queue.take (k + 1)).map m).sum > maxM))
  | [], newM, newI, newS, itIdx, out, h => by
    refine ⟨0, by simp, ?_, by simp, by omega, Or.inl rfl⟩
    simp only [getNextStatesLoop, Except.ok.injEq] at h
    simp [← h]
  | s :: rest, newM, newI, newS, itIdx, out, h => by
    rw [getNextStatesLoop] at h
    by_cases hA : m s > maxM
    · rw [if_pos hA] at h
      exact absurd h (by simp)
    rw [if_neg hA] at h
    by_cases hB : base + newM.sum + m s > maxM
    · rw [if_pos hB] at h
      refine ⟨0, by simp, ?_, by simp, by omega, Or.inr ⟨?_, ?_⟩⟩
      · simp only [Except.ok.injEq] at h
        simp [← h]
      · intro x hx
        simp only [List.take_succ_cons, List.take_zero, List.mem_singleton] at hx
        exact hx ▸ le_of_not_lt hA
      · simpa using hB
    · rw [if_neg hB] at h
      obtain ⟨k, hk, hout, hper, hfit, hstop⟩ :=
        getNextStatesLoop_spec m maxM base rest (newM ++ [m s])
          (newI ++ [itIdx]) (newS ++ [s]) (itIdx + 1) out h
      refine ⟨k + 1, by simpa using hk, ?_, ?_, ?_, ?_⟩
      · rw [hout]
        have harith : itIdx + 1 + k = itIdx + (k + 1) := by omega
        simp [List.range'_succ, harith]
      · intro x hx
        rw [List.take_succ_cons] at hx
        rcases List.mem_cons.mp hx with hx | hx
        · exact hx ▸ le_of_not_lt hA
        · exact hper x hx
      · intro j hj
        cases j with
        | zero =>
          simp only [List.take_succ_cons, List.take_zero, List.map_cons,
            List.map_nil, List.sum_cons, List.sum_nil, add_zero]
          exact le_of_not_lt hB
        | succ j' =>
          have := hfit j' (by omega)
          simp only [List.sum_append, List.sum_cons, List.sum_nil,
            add_zero] at this
          simp only [List.take_succ_cons, List.map_cons, List.sum_cons]
          linarith
      · rcases hstop with hstop | ⟨hall, hsum⟩
        · exact Or.inl (by simp [hstop])
        · refine Or.inr ⟨?_, ?_⟩
          · intro x hx
            rw [List.take_succ_cons] at hx
            rcases List.mem_cons.mp hx with hx | hx
            · exact hx ▸ le_of_not_lt hA
            · exact hall x hx
          · simp only [List.sum_append, List.sum_cons, List.sum_nil,
              add_zero] at hsum
            simp only [List.take_succ_cons, List.map_cons, List.sum_cons]
            linarith

/-- If every state before position `k` is admitted and the state at
position `k` alone exceeds the budget, the admission loop raises the
ValueError at the moment it pulls that state. -/
lemma getNextStatesLoop_error_at {σ : Type} (m : σ → ℚ) (maxM base : ℚ) :
    ∀ (queue : List σ) (newM : List ℚ) (newI : List ℕ) (newS : List σ)
      (itIdx k : ℕ) (hk : k < queue.length),
      (∀ x ∈ queue.take k, m x ≤ maxM) →
      (∀ j < k, base + newM.sum + ((queue.take (j + 1)).map m).sum ≤ maxM) →
      maxM < m (queue.get ⟨k, hk⟩) →
      getNextStatesLoop m maxM base queue newM newI newS itIdx =
        .error (.metricGreaterThanMax (m (queue.get ⟨k, hk⟩)) maxM)
  | [], _, _, _, _, k, hk, _, _, _ => absurd hk (by simp)
  | s :: rest, newM, newI, newS, itIdx, 0, hk, hper, hfit, hover => by
    rw [getNextStatesLoop, if_pos (by simpa using hover)]
    rfl
  | s :: rest, newM, newI, newS, itIdx, k + 1, hk, hper, hfit, hover => by
    have hs : m s ≤ maxM := hper s (by simp [List.take_succ_cons])
    have hfit0 : base + newM.sum + m s ≤ maxM := by
      have := hfit 0 (by omega)
      simpa using this
    rw [getNextStatesLoop, if_neg (not_lt.mpr hs), if_neg (not_lt.mpr hfit0)]
    have hk' : k < rest.length := by simpa using hk
    have hget : (s :: rest).get ⟨k + 1, hk⟩ = rest.get ⟨k, hk'⟩ := rfl
    rw [hget]
    refine getNextStatesLoop_error_at m maxM base rest (newM ++ [m s])
      (newI ++ [itIdx]) (newS ++ [s]) (itIdx + 1) k hk' ?_ ?_ ?_
    · intro x hx
      exact hper x (by simp [List.take_succ_cons, hx])
    · intro j hj
      have := hfit (j + 1) (by omega)
      simp only [List.take_succ_cons, List.map_cons, List.sum_cons] at this
      simp only [List.sum_append, List.sum_cons, List.sum_nil, add_zero]
      linarith
    · exact hover

/-- Method-level shape of a successful `_get_next_states` call when the
budget is set. -/
lemma get_next_states_ok {σ : Type} (m : σ → ℚ) (b b' : HotswappingAutoBatcher σ)
    (ns : List σ) (maxM : ℚ) (hmax : b.max_memory_scaler = some maxM)
    (h : b.get_next_states m = .ok (b', ns)) :
    ∃ k, k ≤ b.states_iterator.length ∧
      ns = b.states_iterator.take k ∧
      b'.states_iterator = b.states_iterator.drop k ∧
      b'.max_memory_scaler = b.max_memory_scaler ∧
      b'.current_scalers = b.current_scalers ++ (b.states_iterator.take k).map m ∧
      b'.current_idx = b.current_idx ++ List.range' b.iterator_idx k ∧
      b'.iterator_idx = b.iterator_idx + k ∧
      b'.completed_idx_og_order = b.completed_idx_og_order ∧
      (∀ x ∈ b.states_iterator.take k, m x ≤ maxM) ∧
      (∀ j < k,
        b.current_scalers.sum + ((b.states_iterator.take (j + 1)).map m).sum ≤ maxM) ∧
      (k = b.states_iterator.length ∨
        ((∀ x ∈ b.states_iterator.take (k + 1), m x ≤ maxM) ∧
          b.current_scalers.sum +
            ((b.states_iterator.take (k + 1)).map m).sum > maxM)) := by
  cases hloop : getNextStatesLoop m maxM b.current_scalers.sum
      b.states_iterator [] [] [] b.iterator_idx with
  | error e =>
    simp only [HotswappingAutoBatcher.get_next_states, hmax, hloop,
      bind, Except.bind] at h
    exact absurd h (by simp)
  | ok out =>
    obtain ⟨k, hk, hout, hper, hfit, hstop⟩ :=
      getNextStatesLoop_spec m maxM b.current_scalers.sum b.states_iterator
        [] [] [] b.iterator_idx out hloop
    subst hout
    simp only [HotswappingAutoBatcher.get_next_states, hmax, hloop,
      bind, Except.bind, Except.ok.injEq, Prod.mk.injEq,
      List.nil_append] at h
    obtain ⟨hb', hns⟩ := h
    refine ⟨k, hk, hns.symm, ?_, ?_, ?_, ?_, ?_, ?_, hper, ?_, ?_⟩
    · rw [← hb']
    · rw [← hb']; exact hmax.symm
    · rw [← hb']
    · rw [← hb']
    · rw [← hb']
    · rw [← hb']
    · intro j hj
      have := hfit j hj
      simpa using this
    · rcases hstop with hs | ⟨h1, h2⟩
      · exact Or.inl hs
      · exact Or.inr ⟨h1, by simpa using h2⟩

/-- C10: `ChunkingAutoBatcher.next_batch` never yields a batch after
exhaustion: once a call has returned `None`, every subsequent call also
returns `None` (the bin cursor only increases and the bin list is fixed at
construction). -/
theorem chunking_next_batch_none_absorbing {σ : Type}
    (c : ChunkingAutoBatcher σ) (h : c.next_batch.1 = none) (n : ℕ) :
    (c.iterateNextBatch n).next_batch.1 = none := by
  have hcur : ¬ c.current_state_bin < c.batched_states.length := by
    intro hlt
    rw [ChunkingAutoBatcher.next_batch, if_pos hlt] at h
    exact absurd h (by simp)
  have hfix : c.next_batch = (none, c) := by
    rw [ChunkingAutoBatcher.next_batch, if_neg hcur]
  have hiter : c.iterateNextBatch n = c := by
    induction n with
    | zero => rfl
    | succ n ih =>
      rw [ChunkingAutoBatcher.iterateNextBatch, hfix]
      exact ih
  rw [hiter, hfix]

/-- Witness for C10 at a concrete exhausted batcher. -/
theorem chunking_next_batch_none_absorbing_witness :
    chunkExhausted.next_batch.1 = none ∧
    (chunkExhausted.iterateNextBatch 3).next_batch.1 = none :=
  ⟨rfl, chunking_next_batch_none_absorbing chunkExhausted rfl 3⟩

/-- C5 counterexample: with a single system of metric 10 and a budget of 5,
`ChunkingAutoBatcher.__init__` raises a builtin ValueError, not an
exception of the spec's distinct ConfigurationError class. -/
theorem chunking_oversize_valueerror_counterexample :
    chunkingInit mChunkCx estChunkCx binpackChunkCx [0] (some 5) =
      .error (.maxMetricTooLarge 0 10 5) ∧
    (Err.maxMetricTooLarge 0 10 5).cls = ErrClass.valueError ∧
    (Err.maxMetricTooLarge 0 10 5).cls ≠ ErrClass.configurationError := by
  refine ⟨by rfl, rfl, by decide⟩

/-- C5 (amended): constructing a `ChunkingAutoBatcher` whose final budget
(given or auto-estimated) is smaller than the largest single system's
metric raises a ValueError (the builtin class, not a distinct
ConfigurationError) naming the first position attaining that metric,
before any batch is produced. -/
theorem chunking_oversize_raises {σ : Type} (m : σ → ℚ)
    (est : List σ → List ℚ → ℚ) (binpack : List (ℕ × ℚ) → ℚ → List (List ℕ))
    (states : List σ) (maxArg : Option ℚ) (mx : ℚ)
    (hmx : listMax (states.map m) = some mx)
    (hover : mx > resolvedBudget est states (states.map m) maxArg) :
    chunkingInit m est binpack states maxArg =
      .error (.maxMetricTooLarge (firstIdxOf mx (states.map m)) mx
        (resolvedBudget est states (states.map m) maxArg)) ∧
    (states.map m).get? (firstIdxOf mx (states.map m)) = some mx ∧
    (Err.maxMetricTooLarge (firstIdxOf mx (states.map m)) mx
      (resolvedBudget est states (states.map m) maxArg)).cls =
      ErrClass.valueError := by
  have hmem : mx ∈ states.map m :=
    List.max?_mem (fun a b => max_choice a b) hmx
  have hfind : firstIdxOf mx (states.map m) < (states.map m).length := by
    refine List.findIdx_lt_length_of_exists ⟨mx, hmem, by simp⟩
  have hget : (states.map m).get? (firstIdxOf mx (states.map m)) = some mx := by
    rw [List.get?_eq_getElem?, List.getElem?_eq_getElem hfind]
    have := @List.findIdx_getElem _ (fun x => decide (x = mx)) (states.map m) hfind
    simpa using this
  refine ⟨?_, hget, rfl⟩
  rw [chunkingInit]
  simp only [hmx, hover, if_pos]

/-- C4 (amended): `determine_max_batch_size` probes the Fibonacci
candidates in order and stops at the first CUDA-OOM candidate; when at
least two candidates were successfully probed before the failure
(`2 <= i`), it returns the second-to-last successfully probed value
`fib[i-2]` (one Fibonacci step below the last success); a non-OOM error at
the first failing candidate is re-raised unmodified. (When the failure
hits the first or second candidate, Python's negative indexing returns an
element from the end of the Fibonacci list instead; see the
counterexample.) -/
theorem determine_max_batch_size_spec (probe : ℕ → ProbeOutcome)
    (maxAtoms i : ℕ) (hlt : i < (fibList maxAtoms).length)
    (hsucc : ∀ j, (hj : j < i) → (hl : j < (fibList maxAtoms).length) →
      ∃ g, probe ((fibList maxAtoms).get ⟨j, hl⟩) = .success g) :
    (2 ≤ i → probe ((fibList maxAtoms).get ⟨i, hlt⟩) = .cudaOOM →
      determine_max_batch_size probe maxAtoms =
        .ok ((fibList maxAtoms).getD (i - 2) 0) ∧
      ((fibList maxAtoms).take i).getD (i - 2) 0 =
        (fibList maxAtoms).getD (i - 2) 0) ∧
    (∀ t, probe ((fibList maxAtoms).get ⟨i, hlt⟩) = .otherError t →
      determine_max_batch_size probe maxAtoms = .error (.runtimeOther t)) := by
  have hskip := dmbsLoop_skip probe (fibList maxAtoms) i (le_of_lt hlt) hsucc
  constructor
  · intro h2 hoom
    constructor
    · rw [determine_max_batch_size, hskip,
        ← List.getElem_cons_drop _ i hlt, dmbsLoop]
      rw [List.get_eq_getElem] at hoom
      rw [hoom, pyIdx, if_pos h2]
    · rw [List.getD_eq_getElem?_getD, List.getD_eq_getElem?_getD,
        List.getElem?_take_of_lt (by omega)]
  · intro t hother
    rw [determine_max_batch_size, hskip,
      ← List.getElem_cons_drop _ i hlt, dmbsLoop]
    rw [List.get_eq_getElem] at hother
    rw [hother]

/-- Witness for C4 (amended): with OOM first hitting candidate 5 (the
fourth Fibonacci candidate) and ceiling 10, the search returns 2. -/
theorem determine_max_batch_size_spec_witness :
    2 ≤ 3 ∧ probeOomAtFive 5 = ProbeOutcome.cudaOOM ∧
    determine_max_batch_size probeOomAtFive 10 =
      .ok ((fibList 10).getD 1 0) ∧
    (fibList 10).getD 1 0 = 2 := by
  have h := (determine_max_batch_size_spec probeOomAtFive 10 3 (by decide)
    (fun j hj hl => ⟨0, by interval_cases j <;> rfl⟩)).1 (by norm_num) rfl
  exact ⟨by norm_num, rfl, h.1, by decide⟩

/-- C4 counterexample: with ceiling 10 the candidates are [1,2,3,5,8,13];
the only successful probe is 1 and the first failing candidate is 2, yet
the function returns 13 (Python index -1 wraps to the end of the list) — a
value that was never successfully probed, exceeds the failing candidate,
and itself OOMs; not the second-to-last successfully probed value. -/
theorem determine_max_batch_size_counterexample :
    determine_max_batch_size probeOomAtTwo 10 = .ok 13 ∧
    probeOomAtTwo 1 = ProbeOutcome.success 0 ∧
    probeOomAtTwo 2 = ProbeOutcome.cudaOOM ∧
    probeOomAtTwo 13 = ProbeOutcome.cudaOOM ∧
    (13 : ℕ) ∉ [1] := by
  refine ⟨by rfl, rfl, rfl, rfl, by decide⟩

/-- Witness for C5 (amended) at a concrete oversized system. -/
theorem chunking_oversize_raises_witness :
    listMax ([0].map mChunkCx) = some 10 ∧
    (10 : ℚ) > resolvedBudget estChunkCx [0] ([0].map mChunkCx) (some 5) ∧
    chunkingInit mChunkCx estChunkCx binpackChunkCx [0] (some 5) =
      .error (.maxMetricTooLarge (firstIdxOf 10 ([0].map mChunkCx)) 10
        (resolvedBudget estChunkCx [0] ([0].map mChunkCx) (some 5))) := by
  have h := chunking_oversize_raises mChunkCx estChunkCx binpackChunkCx
    [0] (some 5) 10 (by rfl) (by decide)
  exact ⟨rfl, by decide, h.1⟩

/-- C2 (amended): during admission (`_get_next_states`), any queued system
whose metric alone exceeds the budget raises a ValueError at the moment it
is pulled from the queue (given every earlier queued system was admitted);
but the very first system pulled by `_first_batch` for the first batch is
admitted without this check. -/
theorem hotswap_oversize_check_spec {σ : Type} (m : σ → ℚ)
    (est : List σ → List ℚ → ℚ) (b : HotswappingAutoBatcher σ) (maxM : ℚ)
    (hmax : b.max_memory_scaler = some maxM) (k : ℕ)
    (hk : k < b.states_iterator.length)
    (hper : ∀ x ∈ b.states_iterator.take k, m x ≤ maxM)
    (hfit : ∀ j < k, b.current_scalers.sum +
      ((b.states_iterator.take (j + 1)).map m).sum ≤ maxM)
    (hover : maxM < m (b.states_iterator.get ⟨k, hk⟩)) :
    b.get_next_states m =
      .error (.metricGreaterThanMax (m (b.states_iterator.get ⟨k, hk⟩)) maxM) ∧
    (Err.metricGreaterThanMax (m (b.states_iterator.get ⟨k, hk⟩)) maxM).cls =
      ErrClass.valueError ∧
    (∀ s, b.states_iterator = [s] →
      ∃ b', b.first_batch m est = .ok (b', [s])) := by
  refine ⟨?_, rfl, ?_⟩
  · have herr := getNextStatesLoop_error_at m maxM b.current_scalers.sum
      b.states_iterator [] [] [] b.iterator_idx k hk hper
      (by simpa using hfit) hover
    simp only [HotswappingAutoBatcher.get_next_states, hmax, herr, bind,
      Except.bind]
  · intro s hq
    cases htr : truthy (some maxM) with
    | true =>
      simp only [HotswappingAutoBatcher.first_batch, hq, hmax, htr, if_true,
        HotswappingAutoBatcher.get_next_states, bind, Except.bind,
        getNextStatesLoop]
      exact ⟨_, rfl⟩
    | false =>
      simp only [HotswappingAutoBatcher.first_batch, hq, hmax, htr,
        Bool.false_eq_true, if_false, HotswappingAutoBatcher.get_next_states,
        bind, Except.bind, getNextStatesLoop]
      exact ⟨_, rfl⟩

/-- Witness for C2 (amended): pulling the oversize queue head raises the
ValueError, while `_first_batch` would admit the same state unchecked. -/
theorem hotswap_oversize_check_spec_witness :
    bOversizeQueue.get_next_states mNatCast =
      .error (.metricGreaterThanMax 7 5) ∧
    (∃ b', bOversizeQueue.first_batch mNatCast estZero = .ok (b', [7])) := by
  have h := hotswap_oversize_check_spec mNatCast estZero bOversizeQueue 5 rfl 0
    (by decide) (by simp) (fun j hj => absurd hj (by omega))
    (by norm_num [bOversizeQueue, mNatCast])
  refine ⟨?_, h.2.2 7 rfl⟩
  have h1 := h.1
  norm_num [bOversizeQueue, mNatCast] at h1
  exact h1

/-- C2 counterexample: the first system pulled for the first batch has
metric 10 > budget 5, yet `next_batch(None, None)` succeeds and admits it;
no ValueError is raised at the moment it is pulled. -/
theorem hotswap_first_pull_unchecked_counterexample :
    HotswappingAutoBatcher.next_batch mTen estZero bFirstOversize none none =
      .ok ({ states_iterator := []
             max_memory_scaler := some 5
             current_scalers := [10]
             current_idx := [0]
             iterator_idx := 1
             completed_idx_og_order := [] }, some [0], []) ∧
    mTen 0 > (5 : ℚ) := by
  exact ⟨by rfl, by norm_num [mTen]⟩

/-- Facts about `_delete_old_states` on an already strictly descending
position list: method-level bookkeeping shape. -/
lemma delete_old_states_ok {σ : Type} (b b1 : HotswappingAutoBatcher σ)
    (ids : List ℕ) (hdesc : ids.Pairwise (· > ·))
    (hlen : b.current_scalers.length = b.current_idx.length)
    (h : b.delete_old_states ids = .ok b1) :
    b1.states_iterator = b.states_iterator ∧
    b1.max_memory_scaler = b.max_memory_scaler ∧
    b1.iterator_idx = b.iterator_idx ∧
    b1.completed_idx_og_order =
      b.completed_idx_og_order ++ ids.filterMap b.current_idx.get? ∧
    b1.current_scalers.length = b1.current_idx.length ∧
    b1.current_idx.length + ids.length = b.current_idx.length ∧
    (ids.filterMap b.current_idx.get? ++ b1.current_idx).Perm b.current_idx := by
  have hsort : sortDesc ids = ids :=
    List.Sorted.insertionSort_eq (hdesc.imp le_of_lt)
  rw [HotswappingAutoBatcher.delete_old_states, hsort] at h
  cases hloop : deleteOldStatesLoop b.current_idx b.current_scalers
      b.completed_idx_og_order ids with
  | error e =>
    rw [hloop] at h
    simp only [bind, Except.bind] at h
    exact absurd h (by simp)
  | ok out =>
    obtain ⟨cur, sca, comp⟩ := out
    obtain ⟨h1, h2, h3, h4⟩ := deleteOldStatesLoop_spec ids b.current_idx
      b.current_scalers b.completed_idx_og_order cur sca comp hdesc hlen hloop
    rw [hloop] at h
    simp only [bind, Except.bind, Except.ok.injEq] at h
    rw [← h]
    exact ⟨rfl, rfl, rfl, h1, h2, by simpa using h3, h4⟩

/-- An `_get_next_states` call never touches the completed-index
bookkeeping. -/
lemma get_next_states_completed {σ : Type} (m : σ → ℚ)
    (b b' : HotswappingAutoBatcher σ) (ns : List σ)
    (h : b.get_next_states m = .ok (b', ns)) :
    b'.completed_idx_og_order = b.completed_idx_og_order := by
  cases hm : b.max_memory_scaler with
  | none =>
    rw [HotswappingAutoBatcher.get_next_states, hm] at h
    cases he : b.states_iterator.isEmpty with
    | true =>
      rw [he, if_pos rfl] at h
      simp only [Except.ok.injEq, Prod.mk.injEq] at h
      rw [← h.1]
    | false =>
      rw [he] at h
      exact absurd h (by simp)
  | some maxM =>
    cases hloop : getNextStatesLoop m maxM b.current_scalers.sum
        b.states_iterator [] [] [] b.iterator_idx with
    | error e =>
      simp only [HotswappingAutoBatcher.get_next_states, hm, hloop, bind,
        Except.bind] at h
      exact absurd h (by simp)
    | ok out =>
      simp only [HotswappingAutoBatcher.get_next_states, hm, hloop, bind,
        Except.bind, Except.ok.injEq, Prod.mk.injEq] at h
      rw [← h.1]

/-- C1 (amended): within one `next_batch` call, the converged systems are
reported in DESCENDING in-flight position order — the reverse of the order
of `True` entries in the convergence flags (the code sorts the flagged
positions in reverse before popping and recording): both the popped
completed states and the original indices appended to
`completed_idx_og_order` follow the reversed `True`-index order. -/
theorem hotswap_completion_order_spec {σ : Type} (m : σ → ℚ)
    (est : List σ → List ℚ → ℚ) (b b' : HotswappingAutoBatcher σ)
    (updated : List σ) (conv : List Bool) (out : Option (List σ))
    (completed : List (List σ))
    (h : b.next_batch m est (some updated) (some conv) =
      .ok (b', out, completed)) :
    completed = (trueIndices conv).reverse.filterMap
      (fun i => (updated.get? i).map fun s => [s]) ∧
    b'.completed_idx_og_order = b.completed_idx_og_order ++
      (trueIndices conv).reverse.filterMap b.current_idx.get? := by
  simp only [HotswappingAutoBatcher.next_batch] at h
  by_cases h1 : conv.length ≠ updated.length
  · rw [if_pos h1] at h
    exact absurd h (by simp)
  rw [if_neg h1] at h
  push_neg at h1
  by_cases h2 : b.current_idx.length ≠ b.current_scalers.length
  · rw [if_pos h2] at h
    exact absurd h (by simp)
  rw [if_neg h2] at h
  push_neg at h2
  by_cases h3 : updated.length = 0
  · rw [if_pos h3] at h
    exact absurd h (by simp)
  rw [if_neg h3] at h
  rw [sortDesc_trueIndices] at h
  have hall : ((trueIndices conv).reverse).all (· < updated.length) = true := by
    rw [List.all_eq_true]
    intro i hi
    rw [List.mem_reverse] at hi
    have := (mem_trueIndices.mp hi).1
    simpa using by omega
  rw [pop_states, if_pos hall] at h
  simp only [bind, Except.bind] at h
  cases hdel : b.delete_old_states ((trueIndices conv).reverse) with
  | error e =>
    rw [hdel] at h
    exact absurd h (by simp)
  | ok b1 =>
    rw [hdel] at h
    dsimp only at h
    have hdesc : ((trueIndices conv).reverse).Pairwise (· > ·) :=
      List.pairwise_reverse.mpr (trueIndices_pairwise conv)
    obtain ⟨-, -, -, hcomp, -, -, -⟩ :=
      delete_old_states_ok b b1 ((trueIndices conv).reverse) hdesc h2.symm hdel
    cases hgns : b1.get_next_states m with
    | error e =>
      rw [hgns] at h
      exact absurd h (by simp)
    | ok pair =>
      obtain ⟨b2, ns⟩ := pair
      rw [hgns] at h
      dsimp only at h
      have hkeep := get_next_states_completed m b1 b2 ns hgns
      by_cases h4 : b2.current_idx = []
      · rw [if_pos h4] at h
        simp only [Except.ok.injEq, Prod.mk.injEq] at h
        obtain ⟨hb', -, hcompleted⟩ := h
        exact ⟨hcompleted.symm, by rw [← hb', hkeep, hcomp]⟩
      · rw [if_neg h4] at h
        simp only [Except.ok.injEq, Prod.mk.injEq] at h
        obtain ⟨hb', -, hcompleted⟩ := h
        exact ⟨hcompleted.symm, by rw [← hb', hkeep, hcomp]⟩

/-- C1 counterexample: with both in-flight systems (positions 0 and 1)
flagged `True`, the popped states come back as `[[9], [7]]` and the
recorded original indices as `[1, 0]` — descending position order, not the
ascending order of the `True` entries, which would give `[[7], [9]]` and
`[0, 1]`. -/
theorem hotswap_completion_order_counterexample :
    HotswappingAutoBatcher.next_batch mNatCast estZero bTwoInFlight
      (some [7, 9]) (some [true, true]) = .ok (bTwoDone, none, [[9], [7]]) ∧
    bTwoDone.completed_idx_og_order = [1, 0] ∧
    ([1, 0] : List ℕ) ≠ [0, 1] ∧
    ([[9], [7]] : List (List ℕ)) ≠ [[7], [9]] := by
  exact ⟨by rfl, rfl, by decide, by decide⟩

/-- Witness for C1 (amended) on the concrete two-system call. -/
theorem hotswap_completion_order_spec_witness :
    ([[9], [7]] : List (List ℕ)) = (trueIndices [true, true]).reverse.filterMap
      (fun i => (([7, 9] : List ℕ).get? i).map fun s => [s]) ∧
    bTwoDone.completed_idx_og_order = bTwoInFlight.completed_idx_og_order ++
      (trueIndices [true, true]).reverse.filterMap
        bTwoInFlight.current_idx.get? :=
  hotswap_completion_order_spec mNatCast estZero bTwoInFlight bTwoDone
    [7, 9] [true, true] none [[9], [7]] (by rfl)

/-- C3 counterexample: with no explicit budget and an estimator that always
returns 100, the budget in force after the first batch is produced is 100
— the re-estimated value with no 0.8 factor — not 0.8 x 100 = 80. -/
theorem hotswap_auto_budget_counterexample :
    HotswappingAutoBatcher.next_batch (fun _ => (1 : ℚ))
      (fun _ _ => (100 : ℚ)) (hotswappingInit [0] none) none none =
      .ok ({ states_iterator := []
             max_memory_scaler := some 100
             current_scalers := [1]
             current_idx := [0]
             iterator_idx := 1
             completed_idx_og_order := [] }, some ([0] : List ℕ), []) ∧
    (100 : ℚ) ≠ 100 * (4 / 5) := by
  exact ⟨by rfl, by norm_num⟩

/-- C3 (amended): when the budget is auto-estimated, `_first_batch` uses
the interim value `est([first]) * 0.8` only to decide which further
systems to admit into the first batch; the budget in force once the first
batch is produced is a fresh estimate over all admitted systems, without
the 0.8 safety factor. -/
theorem hotswap_auto_budget_spec {σ : Type} (m : σ → ℚ)
    (est : List σ → List ℚ → ℚ) (b b' : HotswappingAutoBatcher σ)
    (s : σ) (rest batch : List σ)
    (hq : b.states_iterator = s :: rest)
    (hmax : truthy b.max_memory_scaler = false)
    (hsc : b.current_scalers = [])
    (h : b.first_batch m est = .ok (b', batch)) :
    ∃ k, k ≤ rest.length ∧ batch = s :: rest.take k ∧
      b'.max_memory_scaler =
        some (est (s :: rest.take k) (m s :: (rest.take k).map m)) ∧
      (∀ x ∈ rest.take k, m x ≤ est [s] [m s] * (4 / 5)) ∧
      (∀ j < k, m s + ((rest.take (j + 1)).map m).sum ≤
        est [s] [m s] * (4 / 5)) ∧
      (k = rest.length ∨ m s + ((rest.take (k + 1)).map m).sum >
        est [s] [m s] * (4 / 5)) := by
  rw [HotswappingAutoBatcher.first_batch, hq] at h
  dsimp only at h
  rw [hmax] at h
  simp only [Bool.false_eq_true, if_false, bind, Except.bind] at h
  set b2 : HotswappingAutoBatcher σ :=
    { b with
      states_iterator := rest
      current_scalers := b.current_scalers ++ [m s]
      current_idx := b.current_idx ++ [0]
      iterator_idx := b.iterator_idx + 1
      max_memory_scaler := some (est [s] [m s] * (4 / 5)) } with hb2
  cases hgns : b2.get_next_states m with
  | error e =>
    rw [hgns] at h
    exact absurd h (by simp)
  | ok pair =>
    obtain ⟨b3, ns⟩ := pair
    rw [hgns] at h
    dsimp only at h
    obtain ⟨k, hk, hns, -, -, hcs, -, -, -, hper, hfit, hstop⟩ :=
      get_next_states_ok m b2 b3 ns (est [s] [m s] * (4 / 5)) rfl hgns
    have hq2 : b2.states_iterator = rest := rfl
    have hcs2 : b2.current_scalers = [m s] := by
      simp [hb2, hsc]
    rw [hq2] at hk hns hper hfit hstop hcs
    rw [hcs2] at hcs hfit hstop
    simp only [Except.ok.injEq, Prod.mk.injEq] at h
    obtain ⟨hb', hbatch⟩ := h
    refine ⟨k, hk, ?_, ?_, hper, ?_, ?_⟩
    · rw [← hbatch, hns]
    · rw [← hb']
      dsimp only
      rw [hns, hcs]
      simp
    · intro j hj
      have := hfit j hj
      simpa using this
    · rcases hstop with hs | ⟨-, h2⟩
      · exact Or.inl hs
      · exact Or.inr (by simpa using h2)

/-- Witness for C3 (amended) on a fresh single-system batcher. -/
theorem hotswap_auto_budget_spec_witness :
    ∃ k, ([0] : List ℕ) = 0 :: ([] : List ℕ).take k ∧
      bAutoDone.max_memory_scaler = some 100 := by
  obtain ⟨k, -, hbatch, hmax, -, -, -⟩ :=
    hotswap_auto_budget_spec (fun _ => (1 : ℚ)) (fun _ _ => (100 : ℚ))
      (hotswappingInit [0] none) bAutoDone 0 [] [0] rfl rfl rfl (by rfl)
  exact ⟨k, hbatch, hmax⟩

/-- Sorting pairs by index permutes them. -/
lemma sortByIdx_perm {α : Type} (pairs : List (ℕ × α)) :
    (sortByIdx pairs).Perm pairs :=
  List.perm_insertionSort _ _

/-- Sorting pairs by index makes the index projection ascending. -/
lemma sortByIdx_sorted {α : Type} (pairs : List (ℕ × α)) :
    ((sortByIdx pairs).map Prod.fst).Sorted (· ≤ ·) := by
  haveI : IsTotal (ℕ × α) fun p q => p.1 ≤ q.1 := ⟨fun a b => le_total a.1 b.1⟩
  haveI : IsTrans (ℕ × α) fun p q => p.1 ≤ q.1 :=
    ⟨fun _ _ _ h1 h2 => le_trans h1 h2⟩
  exact List.pairwise_map.mpr
    (List.sorted_insertionSort (fun p q : ℕ × α => p.1 ≤ q.1) pairs)

/-- C7: both `restore_original_order` methods fail loudly with the
explicit count-mismatch ValueError whenever the number of states passed in
differs from the number of recorded original indices (never truncating or
padding), and on matching counts return the states sorted by their
recorded original indices. -/
theorem restore_original_order_spec {σ α : Type}
    (b : HotswappingAutoBatcher σ) (cs : List α)
    (c : ChunkingAutoBatcher σ) (batched : List (List σ)) :
    (cs.length ≠ b.completed_idx_og_order.length →
      b.restore_original_order cs =
        .error (.countMismatch cs.length b.completed_idx_og_order.length) ∧
      (Err.countMismatch cs.length b.completed_idx_og_order.length).cls =
        ErrClass.valueError) ∧
    (cs.length = b.completed_idx_og_order.length →
      ∃ ps : List (ℕ × α),
        b.restore_original_order cs = .ok (ps.map Prod.snd) ∧
        ps.Perm (b.completed_idx_og_order.zip cs) ∧
        (ps.map Prod.fst).Sorted (· ≤ ·)) ∧
    (((batched.map split_state).flatten).length ≠
        c.index_bins.flatten.length →
      c.restore_original_order batched =
        .error (.countMismatch ((batched.map split_state).flatten).length
          c.index_bins.flatten.length) ∧
      (Err.countMismatch ((batched.map split_state).flatten).length
        c.index_bins.flatten.length).cls = ErrClass.valueError) ∧
    (((batched.map split_state).flatten).length =
        c.index_bins.flatten.length →
      ∃ ps : List (ℕ × List σ),
        c.restore_original_order batched = .ok (ps.map Prod.snd) ∧
        ps.Perm (c.index_bins.flatten.zip ((batched.map split_state).flatten)) ∧
        (ps.map Prod.fst).Sorted (· ≤ ·)) := by
  refine ⟨fun hne => ⟨?_, rfl⟩, fun heq => ?_, fun hne => ⟨?_, rfl⟩,
    fun heq => ?_⟩
  · rw [HotswappingAutoBatcher.restore_original_order, if_pos hne]
  · rw [HotswappingAutoBatcher.restore_original_order, if_neg (by omega)]
    exact ⟨sortByIdx (b.completed_idx_og_order.zip cs), rfl,
      sortByIdx_perm _, sortByIdx_sorted _⟩
  · rw [ChunkingAutoBatcher.restore_original_order, if_pos hne]
  · rw [ChunkingAutoBatcher.restore_original_order, if_neg (by omega)]
    exact ⟨sortByIdx (c.index_bins.flatten.zip
      ((batched.map split_state).flatten)), rfl,
      sortByIdx_perm _, sortByIdx_sorted _⟩

/-- Witness for C7: a count mismatch errors with both counts, and a
matching call returns the two states sorted back to original order. -/
theorem restore_original_order_spec_witness :
    bRestore.restore_original_order ([9] : List ℕ) =
      .error (.countMismatch 1 2) ∧
    (∃ ps : List (ℕ × ℕ),
      bRestore.restore_original_order ([9, 8] : List ℕ) =
        .ok (ps.map Prod.snd) ∧
      ps.Perm [(1, 9), (0, 8)] ∧ (ps.map Prod.fst).Sorted (· ≤ ·)) := by
  have h1 := (restore_original_order_spec bRestore ([9] : List ℕ)
    chunkExhausted []).1 (by decide)
  have h2 := (restore_original_order_spec bRestore ([9, 8] : List ℕ)
    chunkExhausted []).2.1 (by decide)
  refine ⟨h1.1, ?_⟩
  obtain ⟨ps, hok, hperm, hsort⟩ := h2
  exact ⟨ps, hok, by simpa [bRestore] using hperm, hsort⟩

/-- C8: `estimate_max_memory_scaler` probes the first-minimum-metric and
first-maximum-metric systems independently and returns exactly
`min(min_system_max_batches * min_metric, max_system_max_batches *
max_metric)`. -/
theorem estimate_max_memory_scaler_spec {σ : Type}
    (probe : σ → ℕ → ProbeOutcome) (states : List σ) (metrics : List ℚ)
    (maxAtoms : ℕ) (mn mx : ℚ)
    (hmn : listMin metrics = some mn) (hmx : listMax metrics = some mx)
    (hlen : states.length = metrics.length) :
    ∃ i j si sj,
      metrics.get? i = some mn ∧ metrics.get? j = some mx ∧
      states.get? i = some si ∧ states.get? j = some sj ∧
      (∀ q ∈ metrics, mn ≤ q ∧ q ≤ mx) ∧
      estimate_max_memory_scaler probe states metrics maxAtoms =
        ((determine_max_batch_size (probe si) maxAtoms).bind fun bi =>
          (determine_max_batch_size (probe sj) maxAtoms).bind fun bj =>
            .ok (min ((bi : ℚ) * mn) ((bj : ℚ) * mx))) := by
  haveI hanti : Std.Antisymm (fun a b : ℚ => a ≤ b) :=
    ⟨fun h1 h2 => le_antisymm h1 h2⟩
  have hmn' := (List.min?_eq_some_iff (fun a => le_refl a)
    (fun a b => min_choice a b) (fun a b c => le_min_iff)).mp hmn
  have hmx' := (List.max?_eq_some_iff (fun a => le_refl a)
    (fun a b => max_choice a b) (fun a b c => max_le_iff)).mp hmx
  have hi : firstIdxOf mn metrics < metrics.length :=
    List.findIdx_lt_length_of_exists ⟨mn, hmn'.1, by simp⟩
  have hj : firstIdxOf mx metrics < metrics.length :=
    List.findIdx_lt_length_of_exists ⟨mx, hmx'.1, by simp⟩
  have hgi : metrics.get? (firstIdxOf mn metrics) = some mn := by
    rw [List.get?_eq_getElem?, List.getElem?_eq_getElem hi]
    have := @List.findIdx_getElem _ (fun x => decide (x = mn)) metrics hi
    simpa using this
  have hgj : metrics.get? (firstIdxOf mx metrics) = some mx := by
    rw [List.get?_eq_getElem?, List.getElem?_eq_getElem hj]
    have := @List.findIdx_getElem _ (fun x => decide (x = mx)) metrics hj
    simpa using this
  have hsi : states.get? (firstIdxOf mn metrics) =
      some (states.get ⟨firstIdxOf mn metrics, by omega⟩) :=
    List.get?_eq_get (by omega)
  have hsj : states.get? (firstIdxOf mx metrics) =
      some (states.get ⟨firstIdxOf mx metrics, by omega⟩) :=
    List.get?_eq_get (by omega)
  refine ⟨firstIdxOf mn metrics, firstIdxOf mx metrics, _, _, hgi, hgj,
    hsi, hsj, fun q hq => ⟨hmn'.2 q hq, hmx'.2 q hq⟩, ?_⟩
  simp only [estimate_max_memory_scaler, hmn, hmx, hsi, hsj]
  rfl

/-- Witness for C8 on metrics `[2, 1, 3]` (min 1 at index 1, max 3 at
index 2) and states `[10, 11, 12]`. -/
theorem estimate_max_memory_scaler_spec_witness :
    listMin [2, 1, 3] = some 1 ∧ listMax [2, 1, 3] = some 3 ∧
    ∃ i j si sj,
      ([2, 1, 3] : List ℚ).get? i = some 1 ∧
      ([2, 1, 3] : List ℚ).get? j = some 3 ∧
      ([10, 11, 12] : List ℕ).get? i = some si ∧
      ([10, 11, 12] : List ℕ).get? j = some sj ∧
      (∀ q ∈ ([2, 1, 3] : List ℚ), 1 ≤ q ∧ q ≤ 3) ∧
      estimate_max_memory_scaler probeAlwaysFits [10, 11, 12] [2, 1, 3] 10 =
        ((determine_max_batch_size (probeAlwaysFits si) 10).bind fun bi =>
          (determine_max_batch_size (probeAlwaysFits sj) 10).bind fun bj =>
            .ok (min ((bi : ℚ) * 1) ((bj : ℚ) * 3))) :=
  ⟨rfl, rfl, estimate_max_memory_scaler_spec probeAlwaysFits [10, 11, 12]
    [2, 1, 3] 10 1 3 rfl rfl rfl⟩

/-- C6: on every `next_batch` call with the budget set, new systems are
admitted from the queue greedily in queue order until the next one would
exceed the remaining budget (budget minus the sum of still-in-flight
metrics); the first non-fitting system stays at the front of the queue and
no queued system is dropped or skipped; admitted systems get consecutive
fresh original indices appended after the surviving bookkeeping
entries. -/
theorem hotswap_greedy_admission {σ : Type} (m : σ → ℚ)
    (est : List σ → List ℚ → ℚ) (b b' : HotswappingAutoBatcher σ)
    (updated : List σ) (conv : List Bool) (out : Option (List σ))
    (completed : List (List σ)) (maxM : ℚ)
    (hmax : b.max_memory_scaler = some maxM)
    (h : b.next_batch m est (some updated) (some conv) =
      .ok (b', out, completed)) :
    ∃ k survivors survivorIdx,
      k ≤ b.states_iterator.length ∧
      b'.states_iterator = b.states_iterator.drop k ∧
      b'.current_scalers = survivors ++ (b.states_iterator.take k).map m ∧
      b'.current_idx = survivorIdx ++ List.range' b.iterator_idx k ∧
      b'.iterator_idx = b.iterator_idx + k ∧
      survivorIdx.length = survivors.length ∧
      (∀ x ∈ b.states_iterator.take k, m x ≤ maxM) ∧
      (∀ j < k, survivors.sum +
        ((b.states_iterator.take (j + 1)).map m).sum ≤ maxM) ∧
      (k = b.states_iterator.length ∨
        survivors.sum +
          ((b.states_iterator.take (k + 1)).map m).sum > maxM) := by
  simp only [HotswappingAutoBatcher.next_batch] at h
  by_cases h1 : conv.length ≠ updated.length
  · rw [if_pos h1] at h
    exact absurd h (by simp)
  rw [if_neg h1] at h
  push_neg at h1
  by_cases h2 : b.current_idx.length ≠ b.current_scalers.length
  · rw [if_pos h2] at h
    exact absurd h (by simp)
  rw [if_neg h2] at h
  push_neg at h2
  by_cases h3 : updated.length = 0
  · rw [if_pos h3] at h
    exact absurd h (by simp)
  rw [if_neg h3] at h
  rw [sortDesc_trueIndices] at h
  have hall : ((trueIndices conv).reverse).all (· < updated.length) = true := by
    rw [List.all_eq_true]
    intro i hi
    rw [List.mem_reverse] at hi
    have := (mem_trueIndices.mp hi).1
    simpa using by omega
  rw [pop_states, if_pos hall] at h
  simp only [bind, Except.bind] at h
  cases hdel : b.delete_old_states ((trueIndices conv).reverse) with
  | error e =>
    rw [hdel] at h
    exact absurd h (by simp)
  | ok b1 =>
    rw [hdel] at h
    dsimp only at h
    have hdesc : ((trueIndices conv).reverse).Pairwise (· > ·) :=
      List.pairwise_reverse.mpr (trueIndices_pairwise conv)
    obtain ⟨hq1, hm1, hit1, -, hlen1, -, -⟩ :=
      delete_old_states_ok b b1 ((trueIndices conv).reverse) hdesc h2.symm hdel
    cases hgns : b1.get_next_states m with
    | error e =>
      rw [hgns] at h
      exact absurd h (by simp)
    | ok pair =>
      obtain ⟨b2, ns⟩ := pair
      rw [hgns] at h
      dsimp only at h
      obtain ⟨k, hk, -, hq2, -, hcs2, hidx2, hit2, -, hper, hfit, hstop⟩ :=
        get_next_states_ok m b1 b2 ns maxM (hm1.trans hmax) hgns
      have hb2 : b' = b2 := by
        by_cases h4 : b2.current_idx = []
        · rw [if_pos h4] at h
          simp only [Except.ok.injEq, Prod.mk.injEq] at h
          exact h.1.symm
        · rw [if_neg h4] at h
          simp only [Except.ok.injEq, Prod.mk.injEq] at h
          exact h.1.symm
      rw [hq1] at hq2 hcs2 hper hfit hstop hk
      rw [hit1] at hidx2 hit2
      subst hb2
      exact ⟨k, b1.current_scalers, b1.current_idx, hk, hq2, hcs2, hidx2,
        hit2, hlen1.symm, hper, hfit, hstop.imp id And.right⟩

/-- Witness for C6 on a concrete call (empty queue, so the greedy
admission stops at queue exhaustion with `k = 0`). -/
theorem hotswap_greedy_admission_witness :
    ∃ k survivors survivorIdx,
      k ≤ bTwoInFlight.states_iterator.length ∧
      bOneLeft.states_iterator = bTwoInFlight.states_iterator.drop k ∧
      bOneLeft.current_scalers =
        survivors ++ (bTwoInFlight.states_iterator.take k).map mNatCast ∧
      bOneLeft.current_idx =
        survivorIdx ++ List.range' bTwoInFlight.iterator_idx k ∧
      bOneLeft.iterator_idx = bTwoInFlight.iterator_idx + k ∧
      survivorIdx.length = survivors.length ∧
      (∀ x ∈ bTwoInFlight.states_iterator.take k, mNatCast x ≤ 10) ∧
      (∀ j < k, survivors.sum +
        ((bTwoInFlight.states_iterator.take (j + 1)).map mNatCast).sum ≤ 10) ∧
      (k = bTwoInFlight.states_iterator.length ∨
        survivors.sum +
          ((bTwoInFlight.states_iterator.take (k + 1)).map mNatCast).sum >
            10) :=
  hotswap_greedy_admission mNatCast estZero bTwoInFlight bOneLeft
    [7, 9] [true, false] (some [9]) [[7]] 10 rfl (by rfl)

/-- Two lists whose concatenation is a permutation of a duplicate-free
range are disjoint. -/
lemma disjoint_of_perm_range {cur comp : List ℕ} {n : ℕ}
    (h : (cur ++ comp).Perm (List.range n)) : ∀ i ∈ cur, i ∉ comp := by
  have hnd : (cur ++ comp).Nodup := h.nodup_iff.mpr (List.nodup_range n)
  intro i hi hc
  exact (List.nodup_append.mp hnd).2.2 hi hc

/-- Swapping the last two appended segments is a permutation. -/
lemma perm_shuffle_append (A B C : List ℕ) :
    ((A ++ B) ++ C).Perm ((A ++ C) ++ B) := by
  rw [List.append_assoc, List.append_assoc]
  exact List.Perm.append_left A List.perm_append_comm

/-- Adjacent ranges concatenate. -/
lemma range_append_range' (it k : ℕ) :
    (List.range it ++ List.range' it k) = List.range (it + k) := by
  rw [List.range_eq_range', List.range_eq_range']
  have := List.range'_append 0 it k 1
  simpa [Nat.add_comm] using this

/-- Bookkeeping shape of any successful `_get_next_states` call (whether
or not the budget is set): `k` fresh consecutive original indices are
appended, `k` metrics are appended, and the completed list is untouched. -/
lemma get_next_states_inv {σ : Type} (m : σ → ℚ)
    (b b' : HotswappingAutoBatcher σ) (ns : List σ)
    (h : b.get_next_states m = .ok (b', ns)) :
    ∃ k, b'.current_scalers.length = b.current_scalers.length + k ∧
      b'.current_idx = b.current_idx ++ List.range' b.iterator_idx k ∧
      b'.iterator_idx = b.iterator_idx + k ∧
      b'.completed_idx_og_order = b.completed_idx_og_order := by
  cases hm : b.max_memory_scaler with
  | none =>
    rw [HotswappingAutoBatcher.get_next_states, hm] at h
    cases he : b.states_iterator.isEmpty with
    | true =>
      rw [he, if_pos rfl] at h
      simp only [Except.ok.injEq, Prod.mk.injEq] at h
      rw [← h.1]
      exact ⟨0, by simp⟩
    | false =>
      rw [he] at h
      exact absurd h (by simp)
  | some maxM =>
    obtain ⟨k, hk, -, -, -, hcs, hidx, hit, hcomp, -, -, -⟩ :=
      get_next_states_ok m b b' ns maxM hm h
    refine ⟨k, ?_, hidx, hit, hcomp⟩
    rw [hcs]
    simp only [List.length_append, List.length_map, List.length_take]
    omega

/-- A successful `_get_next_states` call preserves the bookkeeping
invariant. -/
lemma inv_after_get_next {σ : Type} (m : σ → ℚ)
    (b b' : HotswappingAutoBatcher σ) (ns : List σ)
    (hInv : hotswapInv b) (h : b.get_next_states m = .ok (b', ns)) :
    hotswapInv b' := by
  obtain ⟨hlen, -, hperm⟩ := hInv
  obtain ⟨k, hL, hI, hT, hC⟩ := get_next_states_inv m b b' ns h
  have hperm' : (b'.current_idx ++ b'.completed_idx_og_order).Perm
      (List.range b'.iterator_idx) := by
    rw [hI, hC, hT, ← range_append_range' b.iterator_idx k]
    exact (perm_shuffle_append b.current_idx
      (List.range' b.iterator_idx k) b.completed_idx_og_order).trans
      (hperm.append_right (List.range' b.iterator_idx k))
  refine ⟨?_, disjoint_of_perm_range hperm', hperm'⟩
  rw [hL, hI, hlen]
  simp [List.length_append, List.length_range']

/-- The invariant only reads fields that a budget update leaves alone. -/
lemma inv_max_update {σ : Type} (b : HotswappingAutoBatcher σ) (x : Option ℚ)
    (hInv : hotswapInv b) :
    hotswapInv { b with max_memory_scaler := x } :=
  hInv

/-- C9: after construction, after a successful first call (which produces
the first batch), and after every successful running `next_batch` call,
the bookkeeping lists satisfy: `len(current_scalers) = len(current_idx)`,
the sets `current_idx` and `completed_idx_og_order` are disjoint, and
their union holds exactly the original indices `0 .. iterator_idx - 1`,
each exactly once (no system is lost or duplicated by eviction or
admission). -/
theorem hotswap_bookkeeping_invariants {σ : Type} (m : σ → ℚ)
    (est : List σ → List ℚ → ℚ) (states : List σ) (maxArg : Option ℚ) :
    hotswapInv (hotswappingInit states maxArg) ∧
    (∀ (b : HotswappingAutoBatcher σ)
      (res : HotswappingAutoBatcher σ × Option (List σ) × List (List σ)),
      hotswapInv b → b.next_batch m est none none = .ok res →
      hotswapInv res.1) ∧
    (∀ (b : HotswappingAutoBatcher σ) (updated : List σ) (conv : List Bool)
      (res : HotswappingAutoBatcher σ × Option (List σ) × List (List σ)),
      hotswapInv b → b.next_batch m est (some updated) (some conv) = .ok res →
      hotswapInv res.1) := by
  refine ⟨⟨rfl, by simp [hotswappingInit], by simp [hotswappingInit]⟩, ?_, ?_⟩
  · intro b res hInv h
    simp only [HotswappingAutoBatcher.next_batch] at h
    by_cases hgt : b.iterator_idx > 0
    · rw [if_pos hgt] at h
      exact absurd h (by simp)
    rw [if_neg hgt] at h
    obtain ⟨hlen, -, hperm⟩ := hInv
    have hit0 : b.iterator_idx = 0 := by omega
    rw [hit0, List.range_zero] at hperm
    obtain ⟨hcur, hcomp⟩ := List.append_eq_nil.mp hperm.eq_nil
    have hsca : b.current_scalers = [] := by
      rw [← List.length_eq_zero, hlen, hcur]
      rfl
    cases hfb : b.first_batch m est with
    | error e =>
      rw [hfb] at h
      simp only [bind, Except.bind] at h
      exact absurd h (by simp)
    | ok pair =>
      obtain ⟨b4, batch⟩ := pair
      rw [hfb] at h
      simp only [bind, Except.bind, Except.ok.injEq] at h
      have hres : res.1 = b4 := by rw [← h]
      rw [hres]
      rw [HotswappingAutoBatcher.first_batch] at hfb
      cases hq : b.states_iterator with
      | nil =>
        rw [hq] at hfb
        exact absurd hfb (by simp)
      | cons s rest =>
        rw [hq] at hfb
        dsimp only at hfb
        have hInv1 : hotswapInv
            { b with
              states_iterator := rest
              current_scalers := b.current_scalers ++ [m s]
              current_idx := b.current_idx ++ [0]
              iterator_idx := b.iterator_idx + 1 } := by
          refine ⟨?_, ?_, ?_⟩
          · dsimp only
            simp [hsca, hcur]
          · dsimp only
            rw [hcur, hcomp]
            simp
          · dsimp only
            rw [hcur, hcomp, hit0]
            simp
            decide
        cases htr : truthy b.max_memory_scaler with
        | true =>
          rw [htr] at hfb
          simp only [if_true, bind, Except.bind] at hfb
          cases hgns : HotswappingAutoBatcher.get_next_states m
              { b with
                states_iterator := rest
                current_scalers := b.current_scalers ++ [m s]
                current_idx := b.current_idx ++ [0]
                iterator_idx := b.iterator_idx + 1 } with
          | error e =>
            rw [hgns] at hfb
            exact absurd hfb (by simp)
          | ok pair2 =>
            obtain ⟨b3, ns⟩ := pair2
            rw [hgns] at hfb
            dsimp only at hfb
            simp only [Except.ok.injEq, Prod.mk.injEq] at hfb
            rw [← hfb.1]
            exact inv_after_get_next m _ b3 ns hInv1 hgns
        | false =>
          rw [htr] at hfb
          simp only [Bool.false_eq_true, if_false, bind, Except.bind] at hfb
          cases hgns : HotswappingAutoBatcher.get_next_states m
              { b with
                states_iterator := rest
                current_scalers := b.current_scalers ++ [m s]
                current_idx := b.current_idx ++ [0]
                iterator_idx := b.iterator_idx + 1
                max_memory_scaler := some (est [s] [m s] * (4 / 5)) } with
          | error e =>
            rw [hgns] at hfb
            exact absurd hfb (by simp)
          | ok pair2 =>
            obtain ⟨b3, ns⟩ := pair2
            rw [hgns] at hfb
            dsimp only at hfb
            simp only [Except.ok.injEq, Prod.mk.injEq] at hfb
            rw [← hfb.1]
            exact inv_max_update _ _
              (inv_after_get_next m _ b3 ns (inv_max_update _ _ hInv1) hgns)
  · intro b updated conv res hInv h
    obtain ⟨hlen, -, hperm⟩ := hInv
    simp only [HotswappingAutoBatcher.next_batch] at h
    by_cases h1 : conv.length ≠ updated.length
    · rw [if_pos h1] at h
      exact absurd h (by simp)
    rw [if_neg h1] at h
    rw [if_neg fun hc => hc hlen.symm] at h
    by_cases h3 : updated.length = 0
    · rw [if_pos h3] at h
      exact absurd h (by simp)
    rw [if_neg h3] at h
    rw [sortDesc_trueIndices] at h
    push_neg at h1
    have hall : ((trueIndices conv).reverse).all (· < updated.length) = true := by
      rw [List.all_eq_true]
      intro i hi
      rw [List.mem_reverse] at hi
      have := (mem_trueIndices.mp hi).1
      simpa using by omega
    rw [pop_states, if_pos hall] at h
    simp only [bind, Except.bind] at h
    cases hdel : b.delete_old_states ((trueIndices conv).reverse) with
    | error e =>
      rw [hdel] at h
      exact absurd h (by simp)
    | ok b1 =>
      rw [hdel] at h
      dsimp only at h
      have hdesc : ((trueIndices conv).reverse).Pairwise (· > ·) :=
        List.pairwise_reverse.mpr (trueIndices_pairwise conv)
      obtain ⟨-, -, hit1, hcomp1, hlen1, -, hperm1⟩ :=
        delete_old_states_ok b b1 ((trueIndices conv).reverse) hdesc
          hlen hdel
      have hInv1 : hotswapInv b1 := by
        have hperm1' : (b1.current_idx ++ b1.completed_idx_og_order).Perm
            (List.range b1.iterator_idx) := by
          rw [hcomp1, hit1, ← List.append_assoc]
          refine ((perm_shuffle_append b1.current_idx
            b.completed_idx_og_order
            (((trueIndices conv).reverse).filterMap b.current_idx.get?)).trans
            ?_)
          refine List.Perm.trans ?_ hperm
          exact (List.perm_append_comm.trans hperm1).append_right
            b.completed_idx_og_order
        exact ⟨hlen1, disjoint_of_perm_range hperm1', hperm1'⟩
      cases hgns : b1.get_next_states m with
      | error e =>
        rw [hgns] at h
        exact absurd h (by simp)
      | ok pair =>
        obtain ⟨b2, ns⟩ := pair
        rw [hgns] at h
        dsimp only at h
        have hInv2 : hotswapInv b2 := inv_after_get_next m b1 b2 ns hInv1 hgns
        by_cases h4 : b2.current_idx = []
        · rw [if_pos h4] at h
          have := (Except.ok.inj h)
          rw [← congrArg Prod.fst this]
          exact hInv2
        · rw [if_neg h4] at h
          have := (Except.ok.inj h)
          rw [← congrArg Prod.fst this]
          exact hInv2

/-- Witness for C9: the invariant holds at construction, after the first
batch, and after a running `next_batch` call that evicts both systems. -/
theorem hotswap_bookkeeping_invariants_witness :
    hotswapInv (hotswappingInit ([0] : List ℕ) (some 5)) ∧
    hotswapInv bFirstBatchDone ∧ hotswapInv bTwoDone := by
  have H := hotswap_bookkeeping_invariants mNatCast estZero
    ([0] : List ℕ) (some 5)
  refine ⟨H.1, ?_, ?_⟩
  · exact H.2.1 (hotswappingInit [7] (some 5))
      (bFirstBatchDone, some [7], []) (by decide) (by rfl)
  · exact H.2.2 bTwoInFlight [7, 9] [true, true]
      (bTwoDone, none, [[9], [7]]) (by decide) (by rfl)

end TorchSim
